import Mathlib

/-!
Verification of the response-validation-and-extraction core of OpenRASP's
PHP agent (`agent/php5/agent/backend_response.cc`).

The C++ class `BackendResponse` wraps one backend HTTP response: it parses
the body with rapidjson at construction, exposes transport- and API-level
success checks (`has_error`, `http_code_ok`, `verify`), typed
JSON-Pointer-addressed field accessors (`fetch_int64`, `fetch_string`,
`stringify_object`, `fetch_object_keys`, `fetch_string_array`,
`erase_value`), and two builders (`build_plugin_update_package`,
`build_hook_white_map`).

The embedding below models JSON documents as an inductive tree,
JSON-Pointer parsing and navigation after rapidjson's implementation of
RFC 6901 (token list split on `/`, `~1` unescaped to `/` and `~0` to `~`,
first-match member lookup, digit-only array indices without leading
zeros), and each method of `BackendResponse` as a Lean function translated
from its C++ body.  The rapidjson text parser itself is external library
code; envelope construction is therefore parameterized by an abstract
parse function.
-/

namespace openrasp

/-- A parsed JSON document (rapidjson's value model: objects keep member
order and may repeat a name; numbers are modelled by the `Int64` range
actually fetched). -/
inductive Json where
  | null : Json
  | bool : Bool → Json
  | num : Int → Json
  | str : String → Json
  | arr : List Json → Json
  | obj : List (String × Json) → Json

/-- Split a character list on `/`, keeping empty segments (so `a//b`
yields three tokens); rapidjson's `Pointer` tokenizer does the same. -/
def splitOnSlash : List Char → List (List Char)
  | [] => [[]]
  | c :: cs =>
    if c = '/' then [] :: splitOnSlash cs
    else
      match splitOnSlash cs with
      | [] => [[c]]
      | t :: ts => (c :: t) :: ts

/-- RFC 6901 token unescaping as rapidjson performs it: `~0` becomes `~`,
`~1` becomes `/`, and a `~` followed by anything else (or at the end) is a
pointer parse error. -/
def unescapeToken : List Char → Option (List Char)
  | [] => some []
  | c :: rest =>
    if c = '~' then
      match rest with
      | [] => none
      | c2 :: rest2 =>
        if c2 = '0' then (unescapeToken rest2).map (fun l => '~' :: l)
        else if c2 = '1' then (unescapeToken rest2).map (fun l => '/' :: l)
        else none
    else (unescapeToken rest).map (fun l => c :: l)

/-- Unescape every raw token of a pointer; any invalid escape invalidates
the whole pointer. -/
def unescapeAll : List (List Char) → Option (List String)
  | [] => some []
  | t :: ts =>
    match unescapeToken t, unescapeAll ts with
    | some u, some us => some ((⟨u⟩ : String) :: us)
    | _, _ => none

/-- Parse a JSON-Pointer string into its unescaped token list: the empty
string addresses the root, otherwise the string must begin with `/`
(rapidjson reports a parse error for anything else). -/
def parseTokens : List Char → Option (List String)
  | [] => some []
  | c :: cs => if c = '/' then unescapeAll (splitOnSlash cs) else none

/-- Pointer parsing on `String`. -/
def parsePointer (s : String) : Option (List String) :=
  parseTokens s.data

/-- Value of a digit list read in base 10. -/
def digitsVal (l : List Char) : Nat :=
  l.foldl (fun n ch => n * 10 + (ch.toNat - 48)) 0

/-- The array index denoted by a token, following rapidjson: all
characters must be digits and a leading zero is only allowed for the
token `0` itself; any other token (including `-`) has no index. -/
def tokenIndex (s : String) : Option Nat :=
  match s.data with
  | [] => none
  | c :: cs =>
    if (c :: cs).all (fun ch => ch.isDigit) ∧ (c ≠ '0' ∨ cs = []) then
      some (digitsVal (c :: cs))
    else none

/-- First member of an object with the given name (rapidjson
`FindMember`). -/
def findMember : List (String × Json) → String → Option Json
  | [], _ => none
  | (k, v) :: rest, name => if k = name then some v else findMember rest name

/-- One navigation step of rapidjson `Pointer::Get`: member lookup in an
object, index lookup in an array, failure on any other value type. -/
def getToken : Json → String → Option Json
  | Json.obj ms, t => findMember ms t
  | Json.arr es, t =>
    match tokenIndex t with
    | some i => es.get? i
    | none => none
  | _, _ => none

/-- Navigation along a whole token list. -/
def getTokens : Json → List String → Option Json
  | d, [] => some d
  | d, t :: ts =>
    match getToken d t with
    | some v => getTokens v ts
    | none => none

/-- rapidjson `GetValueByPointer`: parse the pointer, then navigate; an
invalid pointer or a failed step yields no value. -/
def getPointer (d : Json) (path : String) : Option Json :=
  match parsePointer path with
  | some ts => getTokens d ts
  | none => none

/-- The response envelope: `BackendResponse`'s fields as set by its
constructor (`response_code`, `header_string`, `response_string`, the
parsed `document`, and the `parse_error` flag with its diagnostic).  -/
structure BackendResponse where
  response_code : Int
  header_string : String
  response_string : String
  document : Json
  parse_error : Bool
  error_msg : String

/-- The constructor `BackendResponse::BackendResponse`: store the status
code and raw strings, parse the body, and on a parse error retain the
diagnostic and set the flag.  The rapidjson text parser is external
library code, so it is passed in abstractly; a failed parse leaves the
document empty (null). -/
def BackendResponse.mk_of_parse (parse : String → Except String Json)
    (response_code : Int) (header_string response_string : String) : BackendResponse :=
  match parse response_string with
  | Except.ok d =>
      { response_code := response_code, header_string := header_string,
        response_string := response_string, document := d,
        parse_error := false, error_msg := "" }
  | Except.error e =>
      { response_code := response_code, header_string := header_string,
        response_string := response_string, document := Json.null,
        parse_error := true, error_msg := e }

/-- An envelope whose body parsed successfully to `d` (the raw strings
are immaterial to every modelled operation). -/
def mkParsed (response_code : Int) (d : Json) : BackendResponse :=
  BackendResponse.mk_of_parse (fun _ => Except.ok d) response_code "" ""

/-- `BackendResponse::has_error`. -/
def BackendResponse.has_error (r : BackendResponse) : Bool :=
  r.parse_error

/-- `BackendResponse::get_http_code`. -/
def BackendResponse.get_http_code (r : BackendResponse) : Int :=
  r.response_code

/-- `BackendResponse::http_code_ok`: `response_code >= 200 && response_code < 300`. -/
def BackendResponse.http_code_ok (r : BackendResponse) : Bool :=
  decide (200 ≤ r.response_code ∧ r.response_code < 300)

/-- `BackendResponse::fetch_int64`: pointer lookup plus `IsInt64` check;
the C++ out-parameter-and-bool pair is modelled as an `Option`. -/
def BackendResponse.fetch_int64 (r : BackendResponse) (key : String) : Option Int :=
  match getPointer r.document key with
  | some (Json.num n) => some n
  | _ => none

/-- `BackendResponse::fetch_string`: pointer lookup plus `IsString` check. -/
def BackendResponse.fetch_string (r : BackendResponse) (key : String) : Option String :=
  match getPointer r.document key with
  | some (Json.str s) => some s
  | _ => none

/-- `BackendResponse::fetch_status`. -/
def BackendResponse.fetch_status (r : BackendResponse) : Option Int :=
  r.fetch_int64 "/status"

/-- `BackendResponse::fetch_description`. -/
def BackendResponse.fetch_description (r : BackendResponse) : Option String :=
  r.fetch_string "/description"

/-- Serialization of one JSON string literal in the compact style of
rapidjson's `Writer` (quote and backslash escaped; other escapes are
immaterial to every claim, which only concern the success flag). -/
def serializeStringChars : List Char → List Char
  | [] => []
  | c :: cs =>
    if c = '"' then '\\' :: '"' :: serializeStringChars cs
    else if c = '\\' then '\\' :: '\\' :: serializeStringChars cs
    else c :: serializeStringChars cs

mutual

/-- Compact serialization of a value, modelling rapidjson's
`Writer<StringBuffer>`. -/
def Json.serialize : Json → String
  | Json.null => "null"
  | Json.bool b => if b then "true" else "false"
  | Json.num n => toString n
  | Json.str s => "\"" ++ (⟨serializeStringChars s.data⟩ : String) ++ "\""
  | Json.arr es => "[" ++ serializeElems es ++ "]"
  | Json.obj ms => "\x7b" ++ serializeMembers ms ++ "\x7d"

/-- Comma-separated serialization of array elements. -/
def serializeElems : List Json → String
  | [] => ""
  | [e] => Json.serialize e
  | e :: e2 :: es => Json.serialize e ++ "," ++ serializeElems (e2 :: es)

/-- Comma-separated serialization of object members. -/
def serializeMembers : List (String × Json) → String
  | [] => ""
  | [(k, v)] => Json.serialize (Json.str k) ++ ":" ++ Json.serialize v
  | (k, v) :: m2 :: ms =>
      Json.serialize (Json.str k) ++ ":" ++ Json.serialize v ++ "," ++ serializeMembers (m2 :: ms)

end

/-- `BackendResponse::stringify_object`: when the path resolves to an
object, its serialization is written to the out-parameter and `true` is
returned; in every other case the function falls through to `return
true` without touching the out-parameter (modelled as `none`). -/
def BackendResponse.stringify_object (r : BackendResponse) (key : String) :
    Bool × Option String :=
  match getPointer r.document key with
  | some (Json.obj ms) => (true, some (Json.serialize (Json.obj ms)))
  | _ => (true, none)

/-- Remove the first member with the given name (rapidjson
`EraseMember(name)`), reporting failure when no member matches. -/
def removeMemberFirst : List (String × Json) → String → Option (List (String × Json))
  | [], _ => none
  | (k, v) :: rest, name =>
    if k = name then some rest
    else (removeMemberFirst rest name).map (fun ms => (k, v) :: ms)

mutual

/-- rapidjson `Pointer::Erase` after the first token has been split off:
navigate the remaining tokens and erase at the last one, returning the
success flag and the (possibly) updated document.  A failed navigation
step or a wrong-typed node leaves the document unchanged and reports
`false`. -/
def eraseGo : Json → String → List String → Bool × Json
  | Json.obj ms, t, [] =>
    (match removeMemberFirst ms t with
     | some ms2 => (true, Json.obj ms2)
     | none => (false, Json.obj ms))
  | Json.arr es, t, [] =>
    (match tokenIndex t with
     | some i => if i < es.length then (true, Json.arr (es.eraseIdx i)) else (false, Json.arr es)
     | none => (false, Json.arr es))
  | j, _, [] => (false, j)
  | Json.obj ms, t, t2 :: ts =>
    (match eraseInMembers ms t t2 ts with
     | some p => (p.1, Json.obj p.2)
     | none => (false, Json.obj ms))
  | Json.arr es, t, t2 :: ts =>
    (match tokenIndex t with
     | some i =>
       (match eraseInElems es i t2 ts with
        | some p => (p.1, Json.arr p.2)
        | none => (false, Json.arr es))
     | none => (false, Json.arr es))
  | j, _, _ :: _ => (false, j)

/-- Recurse into the first member with the given name, replacing its
value with the erase result; fails when the member is absent. -/
def eraseInMembers : List (String × Json) → String → String → List String →
    Option (Bool × List (String × Json))
  | [], _, _, _ => none
  | (k, v) :: rest, name, t2, ts =>
    if k = name then
      some ((eraseGo v t2 ts).1, (k, (eraseGo v t2 ts).2) :: rest)
    else (eraseInMembers rest name t2 ts).map (fun p => (p.1, (k, v) :: p.2))

/-- Recurse into the element at the given index, replacing it with the
erase result; fails when the index is out of range. -/
def eraseInElems : List Json → Nat → String → List String →
    Option (Bool × List Json)
  | [], _, _, _ => none
  | v :: rest, 0, t2, ts => some ((eraseGo v t2 ts).1, (eraseGo v t2 ts).2 :: rest)
  | v :: rest, i + 1, t2, ts => (eraseInElems rest i t2 ts).map (fun p => (p.1, v :: p.2))

end

/-- `BackendResponse::erase_value`, i.e. rapidjson `EraseValueByPointer`:
an invalid pointer or the root pointer erases nothing; otherwise navigate
and erase as above.  Returns the success flag and the updated envelope
(the only state-changing operation). -/
def BackendResponse.erase_value (r : BackendResponse) (key : String) :
    Bool × BackendResponse :=
  match parsePointer key with
  | none => (false, r)
  | some [] => (false, r)
  | some (t :: ts) =>
    ((eraseGo r.document t ts).1, { r with document := (eraseGo r.document t ts).2 })

/-- The classification of a `verify` failure, one per `openrasp_error`
call site in `BackendResponse::verify` (the spec's §7 taxonomy). -/
inductive VerifyFailure where
  | ParseFailure : VerifyFailure
  | TransportFailure : VerifyFailure
  | ApiFailure : VerifyFailure
deriving DecidableEq, Repr

/-- `BackendResponse::verify`: parse error first, then the HTTP range
check, then — only when both `/status` and `/description` fetches
succeed — the non-zero API status check.  The second component records
which error branch fired. -/
def BackendResponse.verify (r : BackendResponse) : Bool × Option VerifyFailure :=
  if r.has_error then (false, some VerifyFailure.ParseFailure)
  else if !r.http_code_ok then (false, some VerifyFailure.TransportFailure)
  else
    match r.fetch_status, r.fetch_description with
    | some status, some _ =>
      if status ≠ 0 then (false, some VerifyFailure.ApiFailure) else (true, none)
    | _, _ => (true, none)

/-- `BackendResponse::fetch_object_keys`: member names at the path when
it resolves to an object, otherwise the empty vector. -/
def BackendResponse.fetch_object_keys (r : BackendResponse) (key : String) :
    List String :=
  match getPointer r.document key with
  | some (Json.obj ms) => ms.map Prod.fst
  | _ => []

/-- rapidjson `GetString` on an arbitrary value: defined only on strings
(calling it on any other type is undefined behaviour, modelled as
`none`). -/
def asString : Json → Option String
  | Json.str s => some s
  | _ => none

/-- The element loop of `fetch_string_array`: read each element with
`GetString` and push it; undefined behaviour of any element propagates. -/
def mapAsString : List Json → Option (List String)
  | [] => some []
  | j :: js =>
    match asString j, mapAsString js with
    | some s, some ss => some (s :: ss)
    | _, _ => none

/-- `BackendResponse::fetch_string_array`: when the path resolves to an
array, every element is read with `GetString` — undefined behaviour (and
hence `none`) if any element is not a string; any other resolution yields
the empty vector. -/
def BackendResponse.fetch_string_array (r : BackendResponse) (key : String) :
    Option (List String) :=
  match getPointer r.document key with
  | some (Json.arr es) => mapAsString es
  | _ => some []

/-- Replace every occurrence of the character `c` by `repl`. -/
def replaceChar (c : Char) (repl : List Char) : List Char → List Char
  | [] => []
  | x :: xs =>
    if x = c then repl ++ replaceChar c repl xs
    else x :: replaceChar c repl xs

/-- Modelled from the spec: `string_replace` (from `utils/string`, which
is not under src/) as called by `build_hook_white_map` —
`string_replace(json_ptr, "/", "~1")` replaces every literal `/` in the
member name by `~1` (the spec's §4.4 path-escaping step; the pattern is a
single character, so character-wise replacement is exact). -/
def escape_token (s : String) : String :=
  ⟨replaceChar '/' ['~', '1'] s.data⟩

/-- Modelled from the spec: `PluginUpdatePackage {sourceCode, version,
digest}` (the class is declared outside src/); the C++ constructor is
called as `PluginUpdatePackage(plugin, version, md5)`. -/
structure PluginUpdatePackage where
  source_code : String
  version : String
  digest : String
deriving DecidableEq, Repr

/-- `BackendResponse::build_plugin_update_package`: fetch
`/data/plugin/plugin` and `/data/plugin/md5`; compute the digest of the
source and reject on mismatch; then require `/data/plugin/version`; only
then construct the package.  The digest function `md5sum` (from
`utils/digest`, not under src/) is passed in abstractly. -/
def build_plugin_update_package (md5sum : String → String) (r : BackendResponse) :
    Option PluginUpdatePackage :=
  match r.fetch_string "/data/plugin/plugin", r.fetch_string "/data/plugin/md5" with
  | some plugin, some md5 =>
    if md5sum plugin ≠ md5 then none
    else
      match r.fetch_string "/data/plugin/version" with
      | some version => some ⟨plugin, version, md5⟩
      | none => none
  | _, _ => none

/-- Lexicographic character-list comparison, the order of
`std::map<std::string, ...>`. -/
def charListLt : List Char → List Char → Bool
  | [], [] => false
  | [], _ :: _ => true
  | _ :: _, [] => false
  | a :: as, b :: bs =>
    if a.toNat < b.toNat then true
    else if b.toNat < a.toNat then false
    else charListLt as bs

/-- `std::map::insert`: keep the map sorted by key and do nothing when
the key is already present. -/
def mapInsert : List (String × List String) → String → List String →
    List (String × List String)
  | [], k, v => [(k, v)]
  | (k2, v2) :: rest, k, v =>
    if charListLt k.data k2.data then (k, v) :: (k2, v2) :: rest
    else if k = k2 then (k2, v2) :: rest
    else (k2, v2) :: mapInsert rest k v

/-- The loop of `BackendResponse::build_hook_white_map` over the member
names: escape the name, fetch the string array at the concatenated child
path, and insert; `none` propagates the undefined behaviour of
`fetch_string_array` on a non-string element. -/
def buildHookGo (r : BackendResponse) (key : String) :
    List String → List (String × List String) → Option (List (String × List String))
  | [], acc => some acc
  | k :: ks, acc =>
    match r.fetch_string_array (key ++ "/" ++ escape_token k) with
    | some white_types => buildHookGo r key ks (mapInsert acc k white_types)
    | none => none

/-- `BackendResponse::build_hook_white_map`. -/
def BackendResponse.build_hook_white_map (r : BackendResponse) (key : String) :
    Option (List (String × List String)) :=
  buildHookGo r key (r.fetch_object_keys key) []

/-! ### Lemmas and claim theorems -/

/-- Reading back a list of string values succeeds and is the identity. -/
theorem mapAsString_map_str (l : List String) :
    mapAsString (l.map Json.str) = some l := by
  induction l with
  | nil => rfl
  | cons s t ih => simp [mapAsString, asString, ih]

/-- C1 counterexample: an envelope that parsed, with HTTP code 200 and an
API `status` of 1 but no `description`, is accepted by `verify` — the
claim demands `false` with an ApiFailure regardless of `description`. -/
theorem verify_api_status_counterexample :
    (mkParsed 200 (Json.obj [("status", Json.num 1)])).verify = (true, none) := by
  decide

/-- C1 (amended): for a parsed envelope with a 2xx code, `verify` returns
false with an ApiFailure only when the `/status` and `/description`
fetches BOTH succeed and the status is non-zero; with both absent it
returns true, and with a non-zero status but no description it also
returns true. -/
theorem verify_api_status_requires_description (r : BackendResponse)
    (hparse : r.parse_error = false)
    (hcode : 200 ≤ r.response_code ∧ r.response_code < 300) :
    (∀ st, r.fetch_status = some st → st ≠ 0 → (r.fetch_description).isSome = true →
       r.verify = (false, some VerifyFailure.ApiFailure)) ∧
    (r.fetch_status = none ∧ r.fetch_description = none → r.verify = (true, none)) ∧
    (∀ st, r.fetch_status = some st → r.fetch_description = none →
       r.verify = (true, none)) := by
  have hok : r.http_code_ok = true := by
    simpa [BackendResponse.http_code_ok] using hcode
  refine ⟨?_, ?_, ?_⟩
  · intro st hst hne hdesc
    rcases Option.isSome_iff_exists.mp hdesc with ⟨d, hd⟩
    simp [BackendResponse.verify, BackendResponse.has_error, hparse, hok, hst, hd, hne]
  · rintro ⟨hs, hd⟩
    simp [BackendResponse.verify, BackendResponse.has_error, hparse, hok, hs, hd]
  · intro st hst hd
    simp [BackendResponse.verify, BackendResponse.has_error, hparse, hok, hst, hd]

/-- Witness for the amended C1 at a concrete envelope. -/
theorem verify_api_status_requires_description_witness :
    (mkParsed 200 (Json.obj [("status", Json.num 2), ("description", Json.str "oops")])).verify
      = (false, some VerifyFailure.ApiFailure) :=
  (verify_api_status_requires_description
    (mkParsed 200 (Json.obj [("status", Json.num 2), ("description", Json.str "oops")]))
    rfl (by decide)).1 2 rfl (by decide) rfl

/-- C3: whenever parsing the body fails, the envelope has an error and
`verify` rejects it with a ParseFailure — before any HTTP-status or
API-status consideration (the status code here is arbitrary). -/
theorem parse_failure_decisive (parse : String → Except String Json)
    (code : Int) (hdr body e : String) (h : parse body = Except.error e) :
    (BackendResponse.mk_of_parse parse code hdr body).has_error = true ∧
    (BackendResponse.mk_of_parse parse code hdr body).verify =
      (false, some VerifyFailure.ParseFailure) := by
  simp [BackendResponse.mk_of_parse, h, BackendResponse.has_error, BackendResponse.verify]

/-- Witness for C3: a garbage body with a non-2xx status is still
classified as a parse failure. -/
theorem parse_failure_decisive_witness :
    (BackendResponse.mk_of_parse (fun _ => Except.error "bad token") 404 "" "not json").has_error
      = true ∧
    (BackendResponse.mk_of_parse (fun _ => Except.error "bad token") 404 "" "not json").verify =
      (false, some VerifyFailure.ParseFailure) :=
  parse_failure_decisive (fun _ => Except.error "bad token") 404 "" "not json" "bad token" rfl

/-- C8: `http_code_ok` decides exactly membership of [200,300), and on a
parsed envelope with a code outside that range `verify` rejects with a
TransportFailure. -/
theorem http_code_ok_verify (r : BackendResponse) :
    (r.http_code_ok = true ↔ 200 ≤ r.response_code ∧ r.response_code < 300) ∧
    (r.parse_error = false → r.http_code_ok = false →
      r.verify = (false, some VerifyFailure.TransportFailure)) := by
  constructor
  · simp [BackendResponse.http_code_ok]
  · intro hp hok
    simp [BackendResponse.verify, BackendResponse.has_error, hp, hok]

/-- Witness for C8 at status code 500. -/
theorem http_code_ok_verify_witness :
    (mkParsed 500 (Json.obj [])).verify = (false, some VerifyFailure.TransportFailure) :=
  (http_code_ok_verify (mkParsed 500 (Json.obj []))).2 rfl (by decide)

/-- C6 (code bug, evaluated): `stringify_object` at a path that does not
resolve to an object still reports success — it falls through to `return
true` with the out-parameter untouched, where every other typed fetcher
reports failure. -/
theorem stringify_object_nonobject_true :
    (mkParsed 200 (Json.obj [])).stringify_object "/missing" = (true, none) := by
  decide

/-- C7 counterexample: fetching a string array at an absent path and at a
path holding a legitimately-present empty array produce the very same
result, so the two outcomes are not distinguishable by the caller. -/
theorem fetch_array_absent_empty_counterexample :
    (mkParsed 200 (Json.obj [])).fetch_string_array "/a" =
      (mkParsed 200 (Json.obj [("a", Json.arr [])])).fetch_string_array "/a" ∧
    (mkParsed 200 (Json.obj [])).fetch_string_array "/a" = some [] := by
  decide

/-- C7 (amended): the scalar accessors fail closed — an absent path, or a
node of the wrong type, yields the distinct failure outcome — while the
container accessors (`fetch_string_array`, `fetch_object_keys`) collapse
an absent path into the same empty container a present-but-empty value
yields. -/
theorem accessors_fail_closed (r : BackendResponse) (key : String) :
    (getPointer r.document key = none →
       r.fetch_int64 key = none ∧ r.fetch_string key = none ∧
       r.fetch_string_array key = some [] ∧ r.fetch_object_keys key = []) ∧
    (∀ j, getPointer r.document key = some j → (∀ n, j ≠ Json.num n) →
       r.fetch_int64 key = none) ∧
    (∀ j, getPointer r.document key = some j → (∀ s, j ≠ Json.str s) →
       r.fetch_string key = none) := by
  refine ⟨?_, ?_, ?_⟩
  · intro h
    simp [BackendResponse.fetch_int64, BackendResponse.fetch_string,
      BackendResponse.fetch_string_array, BackendResponse.fetch_object_keys, h]
  · intro j hj hn
    cases j with
    | num n => exact absurd rfl (hn n)
    | null => simp [BackendResponse.fetch_int64, hj]
    | bool b => simp [BackendResponse.fetch_int64, hj]
    | str s => simp [BackendResponse.fetch_int64, hj]
    | arr es => simp [BackendResponse.fetch_int64, hj]
    | obj ms => simp [BackendResponse.fetch_int64, hj]
  · intro j hj hs
    cases j with
    | str s => exact absurd rfl (hs s)
    | null => simp [BackendResponse.fetch_string, hj]
    | bool b => simp [BackendResponse.fetch_string, hj]
    | num n => simp [BackendResponse.fetch_string, hj]
    | arr es => simp [BackendResponse.fetch_string, hj]
    | obj ms => simp [BackendResponse.fetch_string, hj]

/-- Witness for the amended C7: scalar accessors fail on an absent path
while the containers come back empty. -/
theorem accessors_fail_closed_witness :
    (mkParsed 200 (Json.obj [])).fetch_int64 "/a" = none ∧
    (mkParsed 200 (Json.obj [])).fetch_string "/a" = none ∧
    (mkParsed 200 (Json.obj [])).fetch_string_array "/a" = some [] ∧
    (mkParsed 200 (Json.obj [])).fetch_object_keys "/a" = [] :=
  (accessors_fail_closed (mkParsed 200 (Json.obj [])) "/a").1 rfl

/-- C2: a plugin package is produced exactly when the `plugin` and `md5`
string fields are present, the computed digest of the source equals the
fetched digest, and the `version` string field is present — and the
package then carries exactly the fetched source, version and digest. -/
theorem build_plugin_package_characterization (md5sum : String → String)
    (r : BackendResponse) :
    ((build_plugin_update_package md5sum r).isSome = true ↔
      ∃ plugin md5, r.fetch_string "/data/plugin/plugin" = some plugin ∧
        r.fetch_string "/data/plugin/md5" = some md5 ∧ md5sum plugin = md5 ∧
        (r.fetch_string "/data/plugin/version").isSome = true) ∧
    (∀ pkg, build_plugin_update_package md5sum r = some pkg →
      r.fetch_string "/data/plugin/plugin" = some pkg.source_code ∧
      r.fetch_string "/data/plugin/version" = some pkg.version ∧
      r.fetch_string "/data/plugin/md5" = some pkg.digest ∧
      md5sum pkg.source_code = pkg.digest) := by
  cases hp : r.fetch_string "/data/plugin/plugin" with
  | none =>
    constructor
    · simp [build_plugin_update_package, hp]
    · intro pkg hpkg
      simp [build_plugin_update_package, hp] at hpkg
  | some plugin =>
    cases hm : r.fetch_string "/data/plugin/md5" with
    | none =>
      constructor
      · simp [build_plugin_update_package, hp, hm]
      · intro pkg hpkg
        simp [build_plugin_update_package, hp, hm] at hpkg
    | some md5 =>
      by_cases hd : md5sum plugin = md5
      · cases hv : r.fetch_string "/data/plugin/version" with
        | none =>
          constructor
          · simp [build_plugin_update_package, hp, hm, hd, hv]
          · intro pkg hpkg
            simp [build_plugin_update_package, hp, hm, hd, hv] at hpkg
        | some version =>
          constructor
          · simp only [build_plugin_update_package, hp, hm, hd, hv]
            simp only [ne_eq, not_true_eq_false, if_false, Option.isSome_some, true_iff]
            exact ⟨plugin, md5, rfl, rfl, hd, by simp [hv]⟩
          · intro pkg hpkg
            simp only [build_plugin_update_package, hp, hm, hd, hv, ne_eq,
              not_true_eq_false, if_false, Option.some.injEq] at hpkg
            subst hpkg
            exact ⟨rfl, rfl, rfl, hd⟩
      · constructor
        · simp only [build_plugin_update_package, hp, hm]
          rw [if_pos hd]
          simp only [Option.isSome_none, Bool.false_eq_true, false_iff]
          rintro ⟨plugin2, md52, hp2, hm2, hd2, -⟩
          exact hd (Option.some_injective _ hp2 ▸ Option.some_injective _ hm2 ▸ hd2)
        · intro pkg hpkg
          simp only [build_plugin_update_package, hp, hm] at hpkg
          rw [if_pos hd] at hpkg
          cases hpkg

/-- Witness for C2: a concrete envelope offering source, matching digest
(under a concrete digest function) and version yields a package. -/
theorem build_plugin_package_characterization_witness :
    (build_plugin_update_package (fun _ => "h77")
      (mkParsed 200 (Json.obj [("data", Json.obj [("plugin", Json.obj
        [("plugin", Json.str "print(1);"), ("md5", Json.str "h77"),
         ("version", Json.str "1.0")])])]))).isSome = true :=
  (build_plugin_package_characterization (fun _ => "h77")
    (mkParsed 200 (Json.obj [("data", Json.obj [("plugin", Json.obj
      [("plugin", Json.str "print(1);"), ("md5", Json.str "h77"),
       ("version", Json.str "1.0")])])]))).1.mpr
    ⟨"print(1);", "h77", rfl, rfl, rfl, rfl⟩

/-- C10: on a path resolving to an array all of whose elements are
strings, `fetch_string_array` is well defined (the undefined-behaviour
branch is not taken) and returns exactly the elements' string values in
document order. -/
theorem fetch_string_array_all_strings (r : BackendResponse) (key : String)
    (ss : List String)
    (h : getPointer r.document key = some (Json.arr (ss.map Json.str))) :
    r.fetch_string_array key = some ss := by
  simp [BackendResponse.fetch_string_array, h, mapAsString_map_str]

/-- Witness for C10 at a concrete two-element array. -/
theorem fetch_string_array_all_strings_witness :
    (mkParsed 200 (Json.obj [("a", Json.arr [Json.str "x", Json.str "y"])])).fetch_string_array
      "/a" = some ["x", "y"] :=
  fetch_string_array_all_strings
    (mkParsed 200 (Json.obj [("a", Json.arr [Json.str "x", Json.str "y"])])) "/a"
    ["x", "y"] rfl

/-- Splitting never produces the empty token list. -/
theorem splitOnSlash_ne_nil (l : List Char) : splitOnSlash l ≠ [] := by
  cases l with
  | nil => simp [splitOnSlash]
  | cons c cs =>
    simp only [splitOnSlash]
    by_cases h : c = '/'
    · simp [h]
    · simp only [h, if_false]
      cases hs : splitOnSlash cs <;> simp

/-- Splitting distributes over a separator placed between two parts. -/
theorem splitOnSlash_append (a b : List Char) :
    splitOnSlash (a ++ '/' :: b) = splitOnSlash a ++ splitOnSlash b := by
  induction a with
  | nil => simp [splitOnSlash]
  | cons c cs ih =>
    by_cases h : c = '/'
    · simp [splitOnSlash, h, ih]
    · simp only [List.cons_append, splitOnSlash, h, if_false]
      simp only [List.append_eq]
      rw [ih]
      cases hs : splitOnSlash cs with
      | nil => exact absurd hs (splitOnSlash_ne_nil cs)
      | cons t ts => simp

/-- A separator-free part is one token. -/
theorem splitOnSlash_no_slash (l : List Char) (h : '/' ∉ l) : splitOnSlash l = [l] := by
  induction l with
  | nil => rfl
  | cons c cs ih =>
    have hc : ¬c = '/' := fun hcc => h (hcc ▸ List.mem_cons_self c cs)
    have hcs : '/' ∉ cs := fun hm => h (List.mem_cons_of_mem c hm)
    simp [splitOnSlash, hc, ih hcs]

/-- The escaped token contains no `/` (every one was replaced). -/
theorem replaceChar_no_slash (l : List Char) : '/' ∉ replaceChar '/' ['~', '1'] l := by
  induction l with
  | nil => simp [replaceChar]
  | cons c cs ih =>
    by_cases h : c = '/'
    · simp only [replaceChar, h, if_pos rfl]
      intro hm
      rcases List.mem_append.mp hm with h1 | h2
      · simp at h1
      · exact ih h2
    · simp only [replaceChar, h, if_false]
      intro hm
      rcases List.mem_cons.mp hm with h1 | h2
      · exact h h1.symm
      · exact ih h2

/-- Unescaping steps over `~1`, producing `/`. -/
theorem unescapeToken_tilde_one (rest : List Char) :
    unescapeToken ('~' :: '1' :: rest) = (unescapeToken rest).map (fun l => '/' :: l) := rfl

/-- Unescaping copies any character other than `~`. -/
theorem unescapeToken_cons_ne (c : Char) (rest : List Char) (h : ¬c = '~') :
    unescapeToken (c :: rest) = (unescapeToken rest).map (fun l => c :: l) := by
  rw [unescapeToken.eq_def]
  simp [h]

/-- Escaping `/` to `~1` round-trips through RFC 6901 unescaping for any
name that contains no `~` of its own. -/
theorem unescape_replaceChar (l : List Char) (h : '~' ∉ l) :
    unescapeToken (replaceChar '/' ['~', '1'] l) = some l := by
  induction l with
  | nil => rfl
  | cons c cs ih =>
    have hc : ¬c = '~' := fun hcc => h (hcc ▸ List.mem_cons_self c cs)
    have hcs : '~' ∉ cs := fun hm => h (List.mem_cons_of_mem c hm)
    by_cases hs : c = '/'
    · subst hs
      simp only [replaceChar, eq_self_iff_true, if_true, List.cons_append, List.nil_append]
      rw [unescapeToken_tilde_one, ih hcs]
      rfl
    · simp only [replaceChar, hs, if_false]
      rw [unescapeToken_cons_ne c _ hc, ih hcs]
      rfl

/-- Unescaping a token list extended by one more valid token. -/
theorem unescapeAll_append_single (a : List (List Char)) (t : List Char)
    (xs : List String) (u : List Char)
    (ha : unescapeAll a = some xs) (ht : unescapeToken t = some u) :
    unescapeAll (a ++ [t]) = some (xs ++ [(⟨u⟩ : String)]) := by
  induction a generalizing xs with
  | nil =>
    simp only [unescapeAll, Option.some.injEq] at ha
    subst ha
    simp [unescapeAll, ht]
  | cons s ss ih =>
    simp only [unescapeAll] at ha
    cases hs : unescapeToken s with
    | none => rw [hs] at ha; cases ha
    | some v =>
      rw [hs] at ha
      cases hss : unescapeAll ss with
      | none => rw [hss] at ha; cases ha
      | some vs =>
        rw [hss] at ha
        simp only [Option.some.injEq] at ha
        subst ha
        simp [unescapeAll, hs, ih vs hss]

/-- Navigation along concatenated token lists is sequential navigation. -/
theorem getTokens_append (d : Json) (l1 l2 : List String) :
    getTokens d (l1 ++ l2) = (getTokens d l1).bind (fun j => getTokens j l2) := by
  induction l1 generalizing d with
  | nil => simp [getTokens]
  | cons t ts ih =>
    simp only [List.cons_append, getTokens]
    cases getToken d t <;> simp [ih]

/-- C4 counterexample: under `/w` the member literally named `a~1b`
stores the array `["x"]`, but `build_hook_white_map` maps `a~1b` to
`["y"]` — the name's `~` is not escaped to `~0`, so the generated child
pointer `/w/a~1b` unescapes to the other member `a/b`. -/
theorem hook_escape_counterexample :
    (mkParsed 200 (Json.obj [("w", Json.obj
        [("a~1b", Json.arr [Json.str "x"]),
         ("a/b", Json.arr [Json.str "y"])])])).build_hook_white_map "/w" =
      some [("a/b", ["y"]), ("a~1b", ["y"])] ∧
    findMember [("a~1b", Json.arr [Json.str "x"]),
         ("a/b", Json.arr [Json.str "y"])] "a~1b" = some (Json.arr [Json.str "x"]) :=
  ⟨by decide, rfl⟩

/-- C4 (amended): the builder escapes only `/` (to `~1`), never `~` (to
`~0`); consequently for every member name free of `~` the concatenated
child path addresses exactly the member with the original name — member
lookup under the parent object retrieves that member's value unchanged. -/
theorem hook_escape_slash_only (d : Json) (key name : String) (pts : List String)
    (hkey : parsePointer key = some pts) (hname : '~' ∉ name.data) :
    getPointer d (key ++ "/" ++ escape_token name) = getTokens d (pts ++ [name]) ∧
    (∀ ms, getTokens d pts = some (Json.obj ms) →
      getPointer d (key ++ "/" ++ escape_token name) = findMember ms name) := by
  have hdata : (key ++ "/" ++ escape_token name).data
      = key.data ++ '/' :: (escape_token name).data := by
    have h1 : ("/" : String).data = ['/'] := rfl
    simp [String.data_append, h1]
  have hns : '/' ∉ (escape_token name).data := replaceChar_no_slash name.data
  have hue : unescapeToken (escape_token name).data = some name.data :=
    unescape_replaceChar name.data hname
  have heta : (⟨name.data⟩ : String) = name := rfl
  have hpt : ∀ l, parseTokens ('/' :: l) = unescapeAll (splitOnSlash l) := fun _ => rfl
  have hparse : parsePointer (key ++ "/" ++ escape_token name) = some (pts ++ [name]) := by
    rw [parsePointer, hdata]
    cases hk : key.data with
    | nil =>
      have hpts : pts = [] := by
        rw [parsePointer, hk] at hkey
        simpa [parseTokens] using hkey.symm
      subst hpts
      rw [List.nil_append, hpt, splitOnSlash_no_slash _ hns]
      simp [unescapeAll, hue, heta]
    | cons c cs =>
      rw [parsePointer, hk] at hkey
      by_cases hc : c = '/'
      · subst hc
        rw [hpt] at hkey
        rw [List.cons_append, hpt, splitOnSlash_append, splitOnSlash_no_slash _ hns]
        rw [unescapeAll_append_single _ _ _ _ hkey hue, heta]
      · simp [parseTokens, hc] at hkey
  constructor
  · rw [getPointer, hparse]
  · intro ms hms
    rw [getPointer, hparse]
    show getTokens d (pts ++ [name]) = findMember ms name
    rw [getTokens_append, hms]
    show getTokens (Json.obj ms) [name] = findMember ms name
    simp only [getTokens, getToken]
    cases findMember ms name <;> rfl

/-- Witness for the amended C4: the hook name `sql/select` is escaped to
`sql~1select` and the child path retrieves the member's array. -/
theorem hook_escape_slash_only_witness :
    getPointer (Json.obj [("w", Json.obj [("sql/select", Json.arr [Json.str "a"])])])
        ("/w" ++ "/" ++ escape_token "sql/select")
      = getTokens (Json.obj [("w", Json.obj [("sql/select", Json.arr [Json.str "a"])])])
          (["w"] ++ ["sql/select"]) :=
  (hook_escape_slash_only
    (Json.obj [("w", Json.obj [("sql/select", Json.arr [Json.str "a"])])])
    "/w" "sql/select" ["w"] rfl (by decide)).1

/-- Inserting into the map adds exactly the new key to the key set. -/
theorem mapInsert_keys (acc : List (String × List String)) (k : String)
    (v : List String) (name : String) :
    name ∈ (mapInsert acc k v).map Prod.fst ↔ name = k ∨ name ∈ acc.map Prod.fst := by
  induction acc with
  | nil => simp [mapInsert]
  | cons q rest ih =>
    obtain ⟨k2, v2⟩ := q
    simp only [mapInsert]
    by_cases h1 : charListLt k.data k2.data
    · rw [if_pos h1]
      simp only [List.map_cons, List.mem_cons]
      try tauto
    · rw [if_neg h1]
      by_cases h2 : k = k2
      · rw [if_pos h2]
        subst h2
        simp only [List.map_cons, List.mem_cons]
        try tauto
      · rw [if_neg h2]
        simp only [List.map_cons, List.mem_cons, ih]
        try tauto

/-- Every entry of the map after an insert is an old entry or the
inserted pair. -/
theorem mapInsert_entry (acc : List (String × List String)) (k : String)
    (v : List String) (p : String × List String) (hp : p ∈ mapInsert acc k v) :
    p ∈ acc ∨ p = (k, v) := by
  induction acc with
  | nil =>
    right
    simpa [mapInsert] using hp
  | cons q rest ih =>
    obtain ⟨k2, v2⟩ := q
    by_cases h1 : charListLt k.data k2.data
    · simp only [mapInsert, if_pos h1] at hp
      rcases List.mem_cons.mp hp with h | h
      · right; exact h
      · left; exact h
    · by_cases h2 : k = k2
      · simp only [mapInsert, if_neg h1, if_pos h2] at hp
        left; exact hp
      · simp only [mapInsert, if_neg h1, if_neg h2] at hp
        rcases List.mem_cons.mp hp with h | h
        · left; exact h ▸ List.mem_cons_self _ _
        · rcases ih h with h3 | h3
          · left; exact List.mem_cons_of_mem _ h3
          · right; exact h3

/-- The key set accumulated by the builder loop is the names processed
plus the keys already in the accumulator. -/
theorem buildHookGo_keys (r : BackendResponse) (key : String) :
    ∀ ks acc m, buildHookGo r key ks acc = some m →
      ∀ name, name ∈ m.map Prod.fst ↔ name ∈ ks ∨ name ∈ acc.map Prod.fst := by
  intro ks
  induction ks with
  | nil =>
    intro acc m h name
    simp only [buildHookGo, Option.some.injEq] at h
    subst h
    simp
  | cons k ks ih =>
    intro acc m h name
    simp only [buildHookGo] at h
    cases hf : r.fetch_string_array (key ++ "/" ++ escape_token k) with
    | none => rw [hf] at h; cases h
    | some wt =>
      rw [hf] at h
      rw [ih _ _ h name, mapInsert_keys]
      simp only [List.mem_cons]
      tauto

/-- Every entry accumulated by the builder loop carries exactly the
string array fetched at its escaped child path. -/
theorem buildHookGo_entries (r : BackendResponse) (key : String) :
    ∀ ks acc m, buildHookGo r key ks acc = some m →
      (∀ p ∈ acc, r.fetch_string_array (key ++ "/" ++ escape_token p.1) = some p.2) →
      ∀ p ∈ m, r.fetch_string_array (key ++ "/" ++ escape_token p.1) = some p.2 := by
  intro ks
  induction ks with
  | nil =>
    intro acc m h hacc
    simp only [buildHookGo, Option.some.injEq] at h
    subst h
    exact hacc
  | cons k ks ih =>
    intro acc m h hacc
    simp only [buildHookGo] at h
    cases hf : r.fetch_string_array (key ++ "/" ++ escape_token k) with
    | none => rw [hf] at h; cases h
    | some wt =>
      rw [hf] at h
      refine ih _ _ h ?_
      intro p hp
      rcases mapInsert_entry acc k wt p hp with h1 | h1
      · exact hacc p h1
      · subst h1; exact hf

/-- C5: whenever the builder returns a map, its key set is exactly the
member names under the path (entries are inserted even for empty
arrays and carry the fetched array), and when the path does not resolve
to an object the result is the empty map. -/
theorem hook_white_map_keys (r : BackendResponse) (key : String)
    (m : List (String × List String)) (h : r.build_hook_white_map key = some m) :
    (∀ name, name ∈ m.map Prod.fst ↔ name ∈ r.fetch_object_keys key) ∧
    (∀ p ∈ m, r.fetch_string_array (key ++ "/" ++ escape_token p.1) = some p.2) ∧
    ((∀ ms, getPointer r.document key ≠ some (Json.obj ms)) → m = []) := by
  refine ⟨?_, ?_, ?_⟩
  · intro name
    simpa using buildHookGo_keys r key (r.fetch_object_keys key) [] m h name
  · exact buildHookGo_entries r key _ _ _ h (by simp)
  · intro hno
    have hkeys : r.fetch_object_keys key = [] := by
      unfold BackendResponse.fetch_object_keys
      cases hg : getPointer r.document key with
      | none => rfl
      | some j =>
        cases j with
        | obj ms => exact absurd hg (hno ms)
        | null => rfl
        | bool b => rfl
        | num n => rfl
        | str s => rfl
        | arr es => rfl
    rw [BackendResponse.build_hook_white_map, hkeys] at h
    simp only [buildHookGo, Option.some.injEq] at h
    exact h.symm

/-- Witness for C5 at the spec's round-trip example, with one non-empty
and one empty hook array. -/
theorem hook_white_map_keys_witness :
    ("hookB" ∈ ([("hookA", ["bypass1", "bypass2"]), ("hookB", [])] :
        List (String × List String)).map Prod.fst ↔
      "hookB" ∈ (mkParsed 200 (Json.obj [("w", Json.obj
        [("hookA", Json.arr [Json.str "bypass1", Json.str "bypass2"]),
         ("hookB", Json.arr [])])])).fetch_object_keys "/w") :=
  (hook_white_map_keys (mkParsed 200 (Json.obj [("w", Json.obj
        [("hookA", Json.arr [Json.str "bypass1", Json.str "bypass2"]),
         ("hookB", Json.arr [])])])) "/w"
    [("hookA", ["bypass1", "bypass2"]), ("hookB", [])] (by decide)).1 "hookB"

/-- A name absent from the member names is not found. -/
theorem findMember_eq_none (ms : List (String × Json)) (name : String)
    (h : name ∉ ms.map Prod.fst) : findMember ms name = none := by
  induction ms with
  | nil => rfl
  | cons p rest ih =>
    obtain ⟨k, v⟩ := p
    simp only [List.map_cons, List.mem_cons, not_or] at h
    have hk : ¬k = name := fun he => h.1 he.symm
    simp only [findMember, hk, if_false]
    exact ih h.2

/-- If removal finds nothing, neither does lookup. -/
theorem removeMemberFirst_none_find (ms : List (String × Json)) (name : String)
    (h : removeMemberFirst ms name = none) : findMember ms name = none := by
  induction ms with
  | nil => rfl
  | cons p rest ih =>
    obtain ⟨k, v⟩ := p
    by_cases hk : k = name
    · simp [removeMemberFirst, hk] at h
    · simp only [removeMemberFirst, hk, if_false] at h
      simp only [findMember, hk, if_false]
      exact ih (Option.map_eq_none'.mp h)

/-- After removing the first member with a name that occurs at most
once, lookup of that name fails. -/
theorem removeMemberFirst_some_find (ms : List (String × Json)) (name : String) :
    ∀ ms2, removeMemberFirst ms name = some ms2 →
      (ms.map Prod.fst).count name ≤ 1 → findMember ms2 name = none := by
  induction ms with
  | nil => intro ms2 h; cases h
  | cons p rest ih =>
    intro ms2 h hc
    obtain ⟨k, v⟩ := p
    by_cases hk : k = name
    · subst hk
      simp only [removeMemberFirst, eq_self_iff_true, if_true, Option.some.injEq] at h
      subst h
      rw [List.map_cons, List.count_cons_self] at hc
      have h0 : (rest.map Prod.fst).count k = 0 := by omega
      exact findMember_eq_none _ _ (List.count_eq_zero.mp h0)
    · simp only [removeMemberFirst, hk, if_false] at h
      cases hr : removeMemberFirst rest name with
      | none => rw [hr] at h; cases h
      | some rest2 =>
        rw [hr] at h
        simp only [Option.map_some', Option.some.injEq] at h
        subst h
        have hne : name ≠ k := fun he => hk he.symm
        rw [List.map_cons, List.count_cons_of_ne hne] at hc
        simp only [findMember, hk, if_false]
        exact ih rest2 hr hc

/-- Recursing the erase into the first member holding a name keeps that
member first: lookup in the rebuilt list returns the erased value. -/
theorem eraseInMembers_find (ms0 : List (String × Json)) (p q : String)
    (qs : List String) (v : Json) (hf : findMember ms0 p = some v) :
    ∃ ms1, eraseInMembers ms0 p q qs = some ((eraseGo v q qs).1, ms1) ∧
      findMember ms1 p = some ((eraseGo v q qs).2) := by
  induction ms0 with
  | nil => cases hf
  | cons r rest ih =>
    obtain ⟨k, w⟩ := r
    by_cases hk : k = p
    · rw [findMember, if_pos hk] at hf
      injection hf with hv
      subst hv
      refine ⟨(k, (eraseGo w q qs).2) :: rest, ?_, ?_⟩
      · simp [eraseInMembers, hk]
      · simp [findMember, hk]
    · rw [findMember, if_neg hk] at hf
      obtain ⟨ms1, h1, h2⟩ := ih hf
      refine ⟨(k, w) :: ms1, ?_, ?_⟩
      · simp [eraseInMembers, hk, h1]
      · simp [findMember, hk, h2]

/-- Recursing the erase into the element at an index keeps the list's
shape: lookup at the index returns the erased element. -/
theorem eraseInElems_get (es0 : List Json) (q : String) (qs : List String) :
    ∀ i v, es0.get? i = some v →
      ∃ es1, eraseInElems es0 i q qs = some ((eraseGo v q qs).1, es1) ∧
        es1.get? i = some ((eraseGo v q qs).2) := by
  induction es0 with
  | nil => intro i v hg; cases hg
  | cons w rest ih =>
    intro i v hg
    cases i with
    | zero =>
      injection hg with hv
      subst hv
      exact ⟨(eraseGo w q qs).2 :: rest, rfl, rfl⟩
    | succ i2 =>
      obtain ⟨es1, h1, h2⟩ := ih i2 v hg
      refine ⟨w :: es1, ?_, ?_⟩
      · simp [eraseInElems, h1]
      · simpa using h2

/-- Destructure one successful navigation step. -/
theorem getTokens_cons_some (d : Json) (t : String) (ts : List String) (x : Json)
    (h : getTokens d (t :: ts) = some x) :
    ∃ v, getToken d t = some v ∧ getTokens v ts = some x := by
  simp only [getTokens] at h
  cases hv : getToken d t with
  | none => rw [hv] at h; cases h
  | some v => rw [hv] at h; exact ⟨v, rfl, h⟩

/-- Destructure a successful array navigation step. -/
theorem getToken_arr_some (es0 : List Json) (t : String) (v : Json)
    (h : getToken (Json.arr es0) t = some v) :
    ∃ i, tokenIndex t = some i ∧ es0.get? i = some v := by
  simp only [getToken] at h
  cases ht : tokenIndex t with
  | none => rw [ht] at h; cases h
  | some i => rw [ht] at h; exact ⟨i, rfl, h⟩

/-- The heart of the erase/refetch relation: erasing at a path whose
last token names an object member occurring at most once in its parent
makes navigation of the whole path fail afterwards. -/
theorem eraseGo_getTokens_none (pts : List String) :
    ∀ (d : Json) (name : String) (ms : List (String × Json)) (t : String) (ts : List String),
      t :: ts = pts ++ [name] →
      getTokens d pts = some (Json.obj ms) →
      (ms.map Prod.fst).count name ≤ 1 →
      getTokens (eraseGo d t ts).2 (pts ++ [name]) = none := by
  induction pts with
  | nil =>
    intro d name ms t ts he hg hc
    simp only [List.nil_append] at he ⊢
    injection he with he1 he2
    subst he1
    subst he2
    simp only [getTokens, Option.some.injEq] at hg
    subst hg
    cases hr : removeMemberFirst ms t with
    | none =>
      have : eraseGo (Json.obj ms) t [] = (false, Json.obj ms) := by
        simp [eraseGo, hr]
      rw [this]
      simp [getTokens, getToken, removeMemberFirst_none_find ms t hr]
    | some ms2 =>
      have : eraseGo (Json.obj ms) t [] = (true, Json.obj ms2) := by
        simp [eraseGo, hr]
      rw [this]
      simp [getTokens, getToken, removeMemberFirst_some_find ms t ms2 hr hc]
  | cons p ps ih =>
    intro d name ms t ts he hg hc
    rw [List.cons_append] at he
    injection he with he1 he2
    subst he1
    subst he2
    obtain ⟨v, hv, hgv⟩ := getTokens_cons_some d t ps (Json.obj ms) hg
    cases hq : ps ++ [name] with
    | nil => exact absurd hq (by simp)
    | cons q qs =>
      cases d with
      | obj ms0 =>
        obtain ⟨ms1, h1, h2⟩ := eraseInMembers_find ms0 t q qs v hv
        have herase : eraseGo (Json.obj ms0) t (q :: qs)
            = ((eraseGo v q qs).1, Json.obj ms1) := by
          simp [eraseGo, h1]
        rw [herase]
        show getTokens (Json.obj ms1) (t :: (ps ++ [name])) = none
        simp only [getTokens, getToken, h2]
        exact ih v name ms q qs hq.symm hgv hc
      | arr es0 =>
        obtain ⟨i, hti, hgi⟩ := getToken_arr_some es0 t v hv
        obtain ⟨es1, h1, h2⟩ := eraseInElems_get es0 q qs i v hgi
        have herase : eraseGo (Json.arr es0) t (q :: qs)
            = ((eraseGo v q qs).1, Json.arr es1) := by
          simp [eraseGo, hti, h1]
        rw [herase]
        show getTokens (Json.arr es1) (t :: (ps ++ [name])) = none
        simp only [getTokens, getToken, hti, h2]
        exact ih v name ms q qs hq.symm hgv hc
      | null => simp [getToken] at hv
      | bool b => simp [getToken] at hv
      | num n => simp [getToken] at hv
      | str s => simp [getToken] at hv

/-- C9 counterexample: erasing the array element at `/a/0` succeeds, yet
re-fetching `/a/0` afterwards still succeeds — the later element shifts
into the erased position, so a successful erase is not followed by an
absent fetch. -/
theorem erase_array_shift_counterexample :
    ((mkParsed 200 (Json.obj [("a", Json.arr [Json.num 1, Json.num 2])])).erase_value
        "/a/0").1 = true ∧
    (((mkParsed 200 (Json.obj [("a", Json.arr [Json.num 1, Json.num 2])])).erase_value
        "/a/0").2).fetch_int64 "/a/0" = some 2 := by
  decide

/-- C9 (amended): fetches are pure functions of the envelope (only
`erase_value` returns an updated envelope), and erasing at a path whose
last token names an object member occurring at most once in its parent
object makes every subsequent fetch at that path report the absent
outcome; for array elements the erase shifts later elements, so the
path may still resolve. -/
theorem erase_member_then_fetch_absent (r : BackendResponse) (key : String)
    (pts : List String) (name : String) (ms : List (String × Json))
    (hp : parsePointer key = some (pts ++ [name]))
    (hobj : getTokens r.document pts = some (Json.obj ms))
    (hcount : (ms.map Prod.fst).count name ≤ 1) :
    ((r.erase_value key).2).fetch_int64 key = none ∧
    ((r.erase_value key).2).fetch_string key = none ∧
    ((r.erase_value key).2).fetch_string_array key = some [] ∧
    ((r.erase_value key).2).fetch_object_keys key = [] := by
  cases hq : pts ++ [name] with
  | nil => exact absurd hq (by simp)
  | cons t ts =>
    have herase : (r.erase_value key).2
        = { r with document := (eraseGo r.document t ts).2 } := by
      rw [BackendResponse.erase_value, hp, hq]
    have hnone : getTokens (eraseGo r.document t ts).2 (pts ++ [name]) = none :=
      eraseGo_getTokens_none pts r.document name ms t ts hq.symm hobj hcount
    have hgp : getPointer ((r.erase_value key).2).document key = none := by
      rw [herase]
      show getPointer (eraseGo r.document t ts).2 key = none
      rw [getPointer, hp]
      exact hnone
    exact ⟨by simp [BackendResponse.fetch_int64, hgp],
      by simp [BackendResponse.fetch_string, hgp],
      by simp [BackendResponse.fetch_string_array, hgp],
      by simp [BackendResponse.fetch_object_keys, hgp]⟩

/-- Witness for the amended C9: erase the root member `token`, then all
fetches at `/token` are absent. -/
theorem erase_member_then_fetch_absent_witness :
    (((mkParsed 200 (Json.obj [("token", Json.str "secret"), ("x", Json.num 5)])).erase_value
        "/token").2).fetch_string "/token" = none :=
  (erase_member_then_fetch_absent
    (mkParsed 200 (Json.obj [("token", Json.str "secret"), ("x", Json.num 5)]))
    "/token" [] "token" [("token", Json.str "secret"), ("x", Json.num 5)]
    rfl rfl (by decide)).2.1

end openrasp
